import Mathlib

/-!
A formal model of backend/main.py from the DeepSeek-OCR relay backend:
the streaming-response aggregation loop of the /ocr endpoint (perform_ocr)
and the coordinate-overlay renderer (draw_bounding_boxes), together with
theorems about their behavior.

External capabilities (the json module, UTF-8 byte decoding, PIL image
decoding and PNG saving, httpx transport) are abstracted to the outcomes
the Python code can observe from them; everything the code itself does with
those outcomes is modelled directly from the source.
-/

namespace OcrBackend

/-- A JSON value: the possible results of json.loads on a chunk of text. -/
inductive JsonValue where
  | null
  | bool (b : Bool)
  | num (n : Int)
  | str (s : String)
  | arr (elems : List JsonValue)
  | obj (fields : List (String × JsonValue))

/-- Whether a JSON value is an object, i.e. json.loads produced a dict. -/
def JsonValue.isObj : JsonValue → Bool
  | .obj _ => true
  | _ => false

/-- Python dict lookup with a default of none.  json.loads builds the dict
in field order, later duplicates overwriting earlier ones, so lookup finds
the last occurrence of the key. -/
def dictGet (fields : List (String × JsonValue)) (key : String) : Option JsonValue :=
  (fields.reverse.find? (fun p => p.1 == key)).map (fun p => p.2)

/-- One raw chunk yielded by response.aiter_bytes(), classified by how the
code can observe it: empty bytes are falsy; non-empty bytes either are not
valid UTF-8 (chunk.decode raises UnicodeDecodeError, e.g. for the single
byte 0xff), or decode to text that json.loads rejects (JSONDecodeError), or
decode to text that json.loads parses to a JSON value. -/
inductive RawChunk where
  | empty
  | badUtf8
  | badJson (text : String)
  | goodJson (value : JsonValue)

/-- The Python exceptions the chunk-loop body can raise past its
try/except, which catches only json.JSONDecodeError:
UnicodeDecodeError from chunk.decode, AttributeError from calling .get on a
non-dict json.loads result, TypeError from adding a non-str .get result to
the str text_response. -/
inductive PyExc where
  | unicodeDecodeError
  | attributeError
  | typeError
deriving DecidableEq

deriving instance DecidableEq for Except

/-- Effect of one loop iteration of perform_ocr on text_response.
Mirrors the body: the truthiness guard skips empty chunks; json.loads
failures are caught by the except clause and skipped; on a parsed dict,
content = chunk_data.get of the response key (empty string default) is
appended; every other exception escapes as an error. -/
def processChunk (acc : String) : RawChunk → Except PyExc String
  | .empty => .ok acc
  | .badUtf8 => .error .unicodeDecodeError
  | .badJson _ => .ok acc
  | .goodJson (.obj fields) =>
    match dictGet fields "response" with
    | none => .ok (acc ++ "")
    | some (.str s) => .ok (acc ++ s)
    | some _ => .error .typeError
  | .goodJson _ => .error .attributeError

/-- The whole chunk loop: fold processChunk over the arriving chunks,
stopping with the escaping exception if one is raised. -/
def aggregateChunks (acc : String) : List RawChunk → Except PyExc String
  | [] => .ok acc
  | c :: rest =>
    match processChunk acc c with
    | .ok acc2 => aggregateChunks acc2 rest
    | .error e => .error e

/-- A chunk that decodes to a well-formed stream fragment: a JSON object
whose response field, when present, is a string (the text delta). -/
def isFragment : RawChunk → Bool
  | .goodJson (.obj fields) =>
    match dictGet fields "response" with
    | none => true
    | some (.str _) => true
    | some _ => false
  | _ => false

/-- Chunks the loop consumes without raising: well-formed fragments, chunks
whose text fails JSON parsing (skipped by the except clause), and empty
chunks (skipped by the truthiness guard). -/
def isHandled : RawChunk → Bool
  | .empty => true
  | .badJson _ => true
  | c => isFragment c

/-- The text delta a chunk contributes to the accumulated text: the
response string of a fragment, nothing otherwise. -/
def chunkDelta : RawChunk → String
  | .goodJson (.obj fields) =>
    match dictGet fields "response" with
    | some (.str s) => s
    | _ => ""
  | _ => ""

/-- Concatenation of the text deltas of a chunk sequence, in arrival order. -/
def concatDeltas : List RawChunk → String
  | [] => ""
  | c :: rest => chunkDelta c ++ concatDeltas rest

/-- A box capture of the coordinate regex: the four integers, in the order
the groups appear in the pattern. -/
abbrev Box := Nat × Nat × Nat × Nat

/-- The character class of the regex token for a digit (ASCII digits; the
coordinate patterns at issue only contain those). -/
def isPyDigit (c : Char) : Bool := c.isDigit

/-- The character class of the regex whitespace token: space, tab, newline,
carriage return, vertical tab, form feed. -/
def isPySpace (c : Char) : Bool :=
  c == ' ' || c == '\t' || c == '\n' || c == '\r' || c == Char.ofNat 11 || c == Char.ofNat 12

/-- int() on a string of decimal digits. -/
def digitsVal (ds : List Char) : Nat :=
  ds.foldl (fun n c => 10 * n + (c.toNat - 48)) 0

/-- The greedy one-or-more-digits group: consume the maximal leading digit
run, failing when it is empty. -/
def parseNum (l : List Char) : Option (Nat × List Char) :=
  if (l.takeWhile isPyDigit).isEmpty then none
  else some (digitsVal (l.takeWhile isPyDigit), l.dropWhile isPyDigit)

/-- A comma, then optional whitespace, then a digit group: the repeated
middle piece of the coordinate pattern. -/
def parseCommaNum (l : List Char) : Option (Nat × List Char) :=
  match l with
  | ',' :: r => parseNum (r.dropWhile isPySpace)
  | _ => none

/-- One anchored attempt of the coordinate regex (two opening brackets,
four comma-separated digit groups with optional spaces after each comma,
two closing brackets) at the start of l; on success returns the four
captured integers and the rest of the input after the matched prefix.
The pattern is deterministic, so this equals the backtracking semantics. -/
def matchBox (l : List Char) : Option (Box × List Char) :=
  match l with
  | '[' :: '[' :: r0 =>
    match parseNum r0 with
    | none => none
    | some (a, r1) =>
      match parseCommaNum r1 with
      | none => none
      | some (b, r2) =>
        match parseCommaNum r2 with
        | none => none
        | some (c, r3) =>
          match parseCommaNum r3 with
          | none => none
          | some (d, r4) =>
            match r4 with
            | ']' :: ']' :: r5 => some ((a, b, c, d), r5)
            | _ => none
  | _ => none

/-- The scan of re.findall: attempt a match at each position from left to
right; after a match, resume right after it, so matches never overlap.
Fuel bounds the recursion; an initial fuel of l.length always suffices
because every step consumes at least one character. -/
def findAllAux : Nat → List Char → List Box
  | 0, _ => []
  | _ + 1, [] => []
  | fuel + 1, c :: rest =>
    match matchBox (c :: rest) with
    | some (t, r) => t :: findAllAux fuel r
    | none => findAllAux fuel rest

/-- re.findall of the coordinate pattern over the response text: the list
of captured quadruples, in order of appearance. -/
def findAll (s : String) : List Box := findAllAux s.data.length s.data

/-- A decoded PIL image, abstracted to what draw_bounding_boxes observes of
it: its pixel width and height, and whether the PNG save step succeeds. -/
structure Img where
  width : Nat
  height : Nat
  savable : Bool
deriving DecidableEq

/-- Uploaded image bytes, classified by whether PIL Image.open decodes
them. -/
inductive ImageBytes where
  | undecodable
  | decodable (img : Img)
deriving DecidableEq

/-- One draw.rectangle call: the corner coordinates in pixel space (exact
rationals standing for the Python floats, whose values here are exact),
plus the fixed outline color and stroke width. -/
structure DrawnRect where
  left : ℚ
  top : ℚ
  right : ℚ
  bottom : ℚ
  outline : String
  strokeWidth : Nat
deriving DecidableEq

/-- The image produced by draw_bounding_boxes just before PNG and base64
serialization: the decoded input image (its pixel grid unchanged apart from
the drawn outlines) plus the rectangles drawn over it, in drawing order. -/
structure AnnotatedImage where
  width : Nat
  height : Nat
  rects : List DrawnRect
deriving DecidableEq

/-- The pixel-space rectangle drawn for one match, exactly as in the loop
body: left = x1 * w / 1000, top = y1 * h / 1000, right = x2 * w / 1000,
bottom = y2 * h / 1000, outline bright green, width 3. -/
def scaleRect (w h : Nat) : Box → DrawnRect
  | (x1, y1, x2, y2) =>
    { left := (x1 : ℚ) * w / 1000
      top := (y1 : ℚ) * h / 1000
      right := (x2 : ℚ) * w / 1000
      bottom := (y2 : ℚ) * h / 1000
      outline := "#00ff00"
      strokeWidth := 3 }

/-- The for loop over the matches: one draw.rectangle call per scaled
rectangle, in match order.  Since Pillow 8.2, ImageDraw.rectangle raises
ValueError when the second corner precedes the first (right < left or
bottom < top); equal corners (zero-width or zero-height boxes) are
accepted and drawn.  A raise aborts the loop (the rectangles already drawn
on the in-memory image are discarded with it); otherwise the rectangle is
added to the image and the loop continues.  Returns the rectangles on the
image after the loop, or none when a call raised. -/
def drawLoop (drawn : List DrawnRect) : List DrawnRect → Option (List DrawnRect)
  | [] => some drawn
  | r :: rest =>
    if r.right < r.left ∨ r.bottom < r.top then none
    else drawLoop (drawn ++ [r]) rest

/-- draw_bounding_boxes: decode the image, find every coordinate match in
the response text, draw the scaled rectangle of each match in order
(drawLoop; an inverted box makes draw.rectangle raise), save as PNG and
return it base64-encoded.  The try/except converts any failure
(undecodable bytes, a raising draw.rectangle call, failing save) into a
none result.  The base64 PNG string is abstracted to the image content it
encodes. -/
def draw_bounding_boxes (image_bytes : ImageBytes) (response_text : String) :
    Option AnnotatedImage :=
  match image_bytes with
  | .undecodable => none
  | .decodable img =>
    match drawLoop [] ((findAll response_text).map (scaleRect img.width img.height)) with
    | none => none
    | some rects =>
      if img.savable then
        some { width := img.width
               height := img.height
               rects := rects }
      else none

def OLLAMA_API_URL : String := "http://localhost:11434/api/generate"

def MODEL_NAME : String := "deepseek-ocr"

/-- The JSON body posted to the Ollama generate endpoint.  The image list
carries the uploaded bytes (base64 transport encoding abstracted away). -/
structure InferencePayload where
  model : String
  prompt : String
  images : List ImageBytes
  stream : Bool

/-- Payload construction in perform_ocr: fixed model name, the caller
prompt, the uploaded image, streaming enabled. -/
def buildPayload (prompt : String) (image_data : ImageBytes) : InferencePayload :=
  { model := MODEL_NAME, prompt := prompt, images := [image_data], stream := true }

/-- Outcome of the streaming POST, as observed by the code: either httpx
raised an httpx.HTTPError while connecting or streaming (connection
failure, or the 120 second timeout), carrying message msg; or a response
arrived with a status code, the message the status error would carry, and
the body chunks. -/
inductive UpstreamOutcome where
  | failed (msg : String)
  | response (status : Nat) (msg : String) (chunks : List RawChunk)

/-- The error classes of the two except clauses of perform_ocr: detail
is the fixed prefix Ollama API Error plus str(e) for httpx.HTTPError, and
the fixed prefix Internal Server Error plus str(e) for everything else. -/
inductive ErrorClass where
  | ollamaApi (msg : String)
  | internal (exc : PyExc)
deriving DecidableEq

/-- What the /ocr endpoint returns to its caller: either the JSON body
with the accumulated text, the optional annotated image and done = true,
or an HTTPException with a status code and an error detail. -/
inductive Response where
  | success (text : String) (processed_image : Option AnnotatedImage) (done : Bool)
  | error (status : Nat) (err : ErrorClass)
deriving DecidableEq

/-- perform_ocr: build the payload, open the streaming POST, check the
status (raise_for_status raises HTTPStatusError, an httpx.HTTPError, for
any status outside 200..299), aggregate the chunks, draw the boxes, and
return text plus optional image; httpx.HTTPError maps to a 500 with the
Ollama API Error detail, any other escaping exception to a 500 with the
Internal Server Error detail.  The upstream interaction is a parameter
mapping the posted payload to its outcome. -/
def perform_ocr (image_data : ImageBytes) (prompt : String)
    (upstream : InferencePayload → UpstreamOutcome) : Response :=
  match upstream (buildPayload prompt image_data) with
  | .failed msg => .error 500 (.ollamaApi msg)
  | .response status msg chunks =>
    if 200 ≤ status ∧ status ≤ 299 then
      match aggregateChunks "" chunks with
      | .ok text => .success text (draw_bounding_boxes image_data text) true
      | .error e => .error 500 (.internal e)
    else .error 500 (.ollamaApi msg)

/-- The coordinate pattern matches at position p of l, consuming n
characters and capturing t. -/
def MatchAt (l : List Char) (p : Nat) (t : Box) (n : Nat) : Prop :=
  0 < n ∧ p + n ≤ l.length ∧ matchBox (l.drop p) = some (t, l.drop (p + n))

/-- Some match of the coordinate pattern starts at position p of l. -/
def StartsMatchAt (l : List Char) (p : Nat) : Prop :=
  ∃ t n, MatchAt l p t n

/-- ts is the sequence of captures of the leftmost non-overlapping matches
of the coordinate pattern in l at or after position start, in order of
appearance: every listed capture comes from a real match, no match starts
before the first listed one, in a gap between consecutive ones, or after
the last one, and each next match is sought only after the previous match
ends (so matches never overlap). -/
inductive ScanSpec (l : List Char) : Nat → List Box → Prop where
  | nil (start : Nat) (hnone : ∀ p, start ≤ p → ¬ StartsMatchAt l p) :
      ScanSpec l start []
  | cons (start p n : Nat) (t : Box) (ts : List Box)
      (hle : start ≤ p) (hm : MatchAt l p t n)
      (hgap : ∀ q, start ≤ q → q < p → ¬ StartsMatchAt l q)
      (hrest : ScanSpec l (p + n) ts) :
      ScanSpec l start (t :: ts)

end OcrBackend

namespace OcrBackend

/-! ## Helper lemmas about the aggregation loop -/

theorem isHandled_of_isFragment (c : RawChunk) (h : isFragment c = true) :
    isHandled c = true := by
  cases c with
  | empty => rfl
  | badUtf8 => simp [isFragment] at h
  | badJson t => rfl
  | goodJson v => simpa [isHandled] using h

theorem processChunk_handled (acc : String) (c : RawChunk) (h : isHandled c = true) :
    processChunk acc c = .ok (acc ++ chunkDelta c) := by
  cases c with
  | empty => simp [processChunk, chunkDelta]
  | badUtf8 => simp [isHandled, isFragment] at h
  | badJson t => simp [processChunk, chunkDelta]
  | goodJson v =>
    cases v with
    | obj fields =>
      simp only [isHandled, isFragment] at h
      cases hg : dictGet fields "response" with
      | none => simp [processChunk, hg, chunkDelta]
      | some jv =>
        cases jv with
        | str s => simp [processChunk, hg, chunkDelta]
        | null => simp [hg] at h
        | bool b => simp [hg] at h
        | num n => simp [hg] at h
        | arr elems => simp [hg] at h
        | obj fields2 => simp [hg] at h
    | null => simp [isHandled, isFragment] at h
    | bool b => simp [isHandled, isFragment] at h
    | num n => simp [isHandled, isFragment] at h
    | str s => simp [isHandled, isFragment] at h
    | arr elems => simp [isHandled, isFragment] at h

theorem aggregateChunks_ok_of_handled (acc : String) (chunks : List RawChunk)
    (h : ∀ c ∈ chunks, isHandled c = true) :
    aggregateChunks acc chunks = .ok (acc ++ concatDeltas chunks) := by
  induction chunks generalizing acc with
  | nil => simp [aggregateChunks, concatDeltas]
  | cons c rest ih =>
    have hc : isHandled c = true := h c (List.mem_cons_self c rest)
    have hrest : ∀ d ∈ rest, isHandled d = true := fun d hd => h d (List.mem_cons_of_mem c hd)
    rw [aggregateChunks, processChunk_handled acc c hc]
    exact (ih (acc ++ chunkDelta c) hrest).trans (by rw [concatDeltas, String.append_assoc])

theorem aggregateChunks_append (acc : String) (xs ys : List RawChunk) :
    aggregateChunks acc (xs ++ ys) =
      match aggregateChunks acc xs with
      | .ok a => aggregateChunks a ys
      | .error e => .error e := by
  induction xs generalizing acc with
  | nil => simp [aggregateChunks]
  | cons c rest ih =>
    simp only [List.cons_append, aggregateChunks]
    cases processChunk acc c with
    | ok a => exact ih a
    | error e => rfl

theorem processChunk_nonObject (acc : String) (v : JsonValue) (hv : v.isObj = false) :
    processChunk acc (.goodJson v) = .error .attributeError := by
  cases v <;> first | rfl | simp [JsonValue.isObj] at hv

end OcrBackend

namespace OcrBackend

/-! ## Claim theorems: aggregation and request-level error routing -/

/-- C1 counterexample: a single undecodable chunk whose bytes are not valid
UTF-8 (for example the single byte 0xff, modelled by RawChunk.badUtf8),
interleaved between two valid fragments, aborts the whole aggregation
rather than being skipped: the loop catches only json.JSONDecodeError, so
the UnicodeDecodeError from chunk.decode escapes, the accumulated text is
discarded, and the request fails with a generic 500 error instead of
returning the concatenation of the valid deltas. -/
theorem undecodable_utf8_chunk_aborts_aggregation :
    aggregateChunks ""
        [.goodJson (.obj [("response", .str "Hello "), ("done", .bool false)]),
         .badUtf8, .goodJson (.obj [("response", .str "World"), ("done", .bool true)])] =
      .error .unicodeDecodeError ∧
    concatDeltas
        [.goodJson (.obj [("response", .str "Hello "), ("done", .bool false)]),
         .goodJson (.obj [("response", .str "World"), ("done", .bool true)])] = "Hello World" ∧
    aggregateChunks ""
        [.goodJson (.obj [("response", .str "Hello "), ("done", .bool false)]),
         .badUtf8, .goodJson (.obj [("response", .str "World"), ("done", .bool true)])] ≠
      .ok "Hello World" ∧
    perform_ocr (.decodable ⟨500, 500, true⟩) "extract text"
      (fun _ => .response 200 ""
        [.goodJson (.obj [("response", .str "Hello "), ("done", .bool false)]),
         .badUtf8, .goodJson (.obj [("response", .str "World"), ("done", .bool true)])]) =
      .error 500 (.internal .unicodeDecodeError) :=
  ⟨by decide, by decide, by decide, by decide⟩

/-- C1 (amended): for every sequence of stream chunks whose undecodable
chunks are valid UTF-8 text that fails JSON parsing (interleaved with valid
fragments and possibly empty chunks), the accumulated text equals the
concatenation of the valid chunks text deltas in arrival order: such an
undecodable chunk is skipped locally, contributes nothing, and never
aborts the aggregation.  (A chunk whose raw bytes are not valid UTF-8 is
excluded: it aborts the whole request, see the counterexample.) -/
theorem json_undecodable_chunks_skipped (chunks : List RawChunk)
    (h : ∀ c ∈ chunks, isHandled c = true) :
    aggregateChunks "" chunks = .ok (concatDeltas chunks) := by
  simpa using aggregateChunks_ok_of_handled "" chunks h

theorem json_undecodable_chunks_skipped_witness :
    (∀ c ∈ ([.goodJson (.obj [("response", .str "Hello "), ("done", .bool false)]),
             .badJson "not json at all", .empty,
             .goodJson (.obj [("response", .str "World"), ("done", .bool true)])] :
        List RawChunk), isHandled c = true) ∧
    aggregateChunks ""
        [.goodJson (.obj [("response", .str "Hello "), ("done", .bool false)]),
         .badJson "not json at all", .empty,
         .goodJson (.obj [("response", .str "World"), ("done", .bool true)])] =
      .ok "Hello World" :=
  ⟨by decide,
    (json_undecodable_chunks_skipped
        [.goodJson (.obj [("response", .str "Hello "), ("done", .bool false)]),
         .badJson "not json at all", .empty,
         .goodJson (.obj [("response", .str "World"), ("done", .bool true)])]
        (by decide)).trans (by decide)⟩

/-- C2: for every sequence of stream chunks in which every chunk decodes
successfully as a fragment (a JSON object whose response field, when
present, is a string), the accumulated text equals the concatenation of
each fragment text delta in arrival order, a fragment with an absent
response field contributing the empty string. -/
theorem fragments_accumulate_in_order (chunks : List RawChunk)
    (h : ∀ c ∈ chunks, isFragment c = true) :
    aggregateChunks "" chunks = .ok (concatDeltas chunks) := by
  simpa using aggregateChunks_ok_of_handled "" chunks
    (fun c hc => isHandled_of_isFragment c (h c hc))

theorem fragments_accumulate_in_order_witness :
    (∀ c ∈ ([.goodJson (.obj [("response", .str "Hello "), ("done", .bool false)]),
             .goodJson (.obj [("done", .bool false)]),
             .goodJson (.obj [("response", .str "World"), ("done", .bool true)])] :
        List RawChunk), isFragment c = true) ∧
    aggregateChunks ""
        [.goodJson (.obj [("response", .str "Hello "), ("done", .bool false)]),
         .goodJson (.obj [("done", .bool false)]),
         .goodJson (.obj [("response", .str "World"), ("done", .bool true)])] =
      .ok "Hello World" :=
  ⟨by decide,
    (fragments_accumulate_in_order
        [.goodJson (.obj [("response", .str "Hello "), ("done", .bool false)]),
         .goodJson (.obj [("done", .bool false)]),
         .goodJson (.obj [("response", .str "World"), ("done", .bool true)])]
        (by decide)).trans (by decide)⟩

/-- C3: for every uploaded image byte string and every accumulated text,
a failure inside draw_bounding_boxes (undecodable image bytes, a raising
draw.rectangle call, or a failing PNG save) is caught inside the renderer,
which returns an absent annotation without raising, and the request still
returns the accumulated text successfully: the response is the success
body carrying the text and whatever (possibly absent) annotation the
renderer produced. -/
theorem annotation_failure_never_fails_request (ib : ImageBytes) (prompt msg : String)
    (chunks : List RawChunk) (text : String)
    (h : aggregateChunks "" chunks = .ok text) :
    perform_ocr ib prompt (fun _ => .response 200 msg chunks) =
      .success text (draw_bounding_boxes ib text) true ∧
    draw_bounding_boxes .undecodable text = none ∧
    ∀ img : Img, img.savable = false → draw_bounding_boxes (.decodable img) text = none := by
  refine ⟨?_, rfl, ?_⟩
  · simp [perform_ocr, h]
  · intro img himg
    cases hdl : drawLoop [] ((findAll text).map (scaleRect img.width img.height)) with
    | none => simp [draw_bounding_boxes, hdl]
    | some rects => simp [draw_bounding_boxes, hdl, himg]

theorem annotation_failure_never_fails_request_witness :
    aggregateChunks "" [.goodJson (.obj [("response", .str "Hello "), ("done", .bool true)])] =
      .ok "Hello " ∧
    perform_ocr .undecodable "extract text"
      (fun _ => .response 200 ""
        [.goodJson (.obj [("response", .str "Hello "), ("done", .bool true)])]) =
      .success "Hello " none true :=
  ⟨by decide, by
    have h := annotation_failure_never_fails_request .undecodable "extract text" ""
      [.goodJson (.obj [("response", .str "Hello "), ("done", .bool true)])] "Hello "
      (by decide)
    simpa [draw_bounding_boxes] using h.1⟩

/-- C7: for every request in which the upstream connection cannot be
established, times out (both: the httpx.HTTPError case), or returns a
non-2xx status (raise_for_status), perform_ocr fails with the single
Ollama API Error class as a 500 carrying the exception detail text, and no
partial result, in particular no partially accumulated text, is returned. -/
theorem upstream_unavailable_fails_request (ib : ImageBytes) (prompt msg : String)
    (status : Nat) (chunks : List RawChunk)
    (hstatus : ¬ (200 ≤ status ∧ status ≤ 299)) :
    perform_ocr ib prompt (fun _ => .failed msg) = .error 500 (.ollamaApi msg) ∧
    perform_ocr ib prompt (fun _ => .response status msg chunks) =
      .error 500 (.ollamaApi msg) := by
  constructor
  · rfl
  · simp only [perform_ocr]
    rw [if_neg hstatus]

theorem upstream_unavailable_fails_request_witness :
    ¬ ((200 : Nat) ≤ 503 ∧ (503 : Nat) ≤ 299) ∧
    perform_ocr (.decodable ⟨500, 500, true⟩) "extract text" (fun _ => .failed "timed out") =
      .error 500 (.ollamaApi "timed out") ∧
    perform_ocr (.decodable ⟨500, 500, true⟩) "extract text"
      (fun _ => .response 503 "Service Unavailable"
        [.goodJson (.obj [("response", .str "Hello ")])]) =
      .error 500 (.ollamaApi "Service Unavailable") :=
  ⟨by decide,
    (upstream_unavailable_fails_request (.decodable ⟨500, 500, true⟩) "extract text"
      "timed out" 503 [] (by decide)).1,
    (upstream_unavailable_fails_request (.decodable ⟨500, 500, true⟩) "extract text"
      "Service Unavailable" 503 [.goodJson (.obj [("response", .str "Hello ")])]
      (by decide)).2⟩

/-- C10: a stream chunk whose bytes decode as valid JSON but not as a JSON
object (an array, string, number, boolean or null) is not skipped by the
aggregation loop: calling .get on the non-dict raises AttributeError,
which escapes the chunk loop (only json.JSONDecodeError is caught), and
the whole request fails with a generic Internal Server Error 500,
discarding all text accumulated so far; chunks that fail JSON decoding
itself are silently skipped, leaving the aggregation unchanged. -/
theorem json_non_object_chunk_fails_request
    (pre post : List RawChunk) (v : JsonValue) (hv : v.isObj = false)
    (hpre : ∀ c ∈ pre, isHandled c = true) (img : Img) (prompt msg : String) :
    aggregateChunks "" (pre ++ .goodJson v :: post) = .error .attributeError ∧
    perform_ocr (.decodable img) prompt
      (fun _ => .response 200 msg (pre ++ .goodJson v :: post)) =
      .error 500 (.internal .attributeError) ∧
    ∀ s : String, aggregateChunks "" (pre ++ .badJson s :: post) =
      aggregateChunks "" (pre ++ post) := by
  have hagg : aggregateChunks "" (pre ++ .goodJson v :: post) = .error .attributeError := by
    rw [aggregateChunks_append, aggregateChunks_ok_of_handled "" pre hpre]
    show aggregateChunks ("" ++ concatDeltas pre) (.goodJson v :: post) = _
    rw [aggregateChunks, processChunk_nonObject _ v hv]
  refine ⟨hagg, ?_, ?_⟩
  · simp [perform_ocr, hagg]
  · intro s
    rw [aggregateChunks_append, aggregateChunks_append,
      aggregateChunks_ok_of_handled "" pre hpre]
    rfl

end OcrBackend

namespace OcrBackend

theorem json_non_object_chunk_fails_request_witness :
    (JsonValue.arr []).isObj = false ∧
    aggregateChunks ""
        ([.goodJson (.obj [("response", .str "Hello ")])] ++
          .goodJson (.arr []) :: [.goodJson (.obj [("response", .str "World")])]) =
      .error .attributeError ∧
    perform_ocr (.decodable ⟨500, 500, true⟩) "extract text"
      (fun _ => .response 200 "ok"
        ([.goodJson (.obj [("response", .str "Hello ")])] ++
          .goodJson (.arr []) :: [.goodJson (.obj [("response", .str "World")])])) =
      .error 500 (.internal .attributeError) := by
  have h := json_non_object_chunk_fails_request
    [.goodJson (.obj [("response", .str "Hello ")])]
    [.goodJson (.obj [("response", .str "World")])]
    (.arr []) (by decide) (by decide) ⟨500, 500, true⟩ "extract text" "ok"
  exact ⟨by decide, h.1, h.2.1⟩

/-! ## Helper lemmas about the drawing loop -/

theorem drawLoop_ok (drawn : List DrawnRect) (l : List DrawnRect)
    (h : ∀ r ∈ l, r.left ≤ r.right ∧ r.top ≤ r.bottom) :
    drawLoop drawn l = some (drawn ++ l) := by
  induction l generalizing drawn with
  | nil => simp [drawLoop]
  | cons r rest ih =>
    have hr := h r (List.mem_cons_self r rest)
    rw [drawLoop, if_neg (by push_neg; exact ⟨hr.1, hr.2⟩)]
    rw [ih (drawn ++ [r]) (fun s hs => h s (List.mem_cons_of_mem r hs))]
    simp

theorem drawLoop_some {drawn l res : List DrawnRect} (h : drawLoop drawn l = some res) :
    res = drawn ++ l := by
  induction l generalizing drawn with
  | nil =>
    simp only [drawLoop, Option.some.injEq] at h
    rw [List.append_nil]
    exact h.symm
  | cons r rest ih =>
    rw [drawLoop] at h
    split at h
    · exact absurd h (by simp)
    · have hres := ih h
      rw [hres]
      simp

theorem drawLoop_none_of_inverted {drawn l : List DrawnRect}
    (h : ∃ r ∈ l, r.right < r.left ∨ r.bottom < r.top) :
    drawLoop drawn l = none := by
  induction l generalizing drawn with
  | nil => simp at h
  | cons r rest ih =>
    rw [drawLoop]
    by_cases hr : r.right < r.left ∨ r.bottom < r.top
    · rw [if_pos hr]
    · rw [if_neg hr]
      apply ih
      rcases h with ⟨s, hs, hinv⟩
      rcases List.mem_cons.mp hs with he | hm
      · exact absurd (he ▸ hinv) hr
      · exact ⟨s, hm, hinv⟩

theorem draw_bounding_boxes_some {img : Img} {text : String} {ann : AnnotatedImage}
    (h : draw_bounding_boxes (.decodable img) text = some ann) :
    img.savable = true ∧
    ann = ⟨img.width, img.height, (findAll text).map (scaleRect img.width img.height)⟩ := by
  cases hdl : drawLoop [] ((findAll text).map (scaleRect img.width img.height)) with
  | none =>
    simp only [draw_bounding_boxes, hdl] at h
    exact absurd h (by simp)
  | some rects =>
    simp only [draw_bounding_boxes, hdl] at h
    by_cases hsav : img.savable = true
    · rw [if_pos hsav, Option.some.injEq] at h
      have hre : rects = (findAll text).map (scaleRect img.width img.height) := by
        simpa using drawLoop_some hdl
      exact ⟨hsav, by rw [← h, hre]⟩
    · rw [if_neg hsav] at h
      exact absurd h (by simp)

/-! ## Claim theorems: the coordinate-overlay renderer -/

/-- C4 counterexample: an inverted box does prevent the annotated image
from being produced.  The text [[9,9,1,1]] on a 10 by 10 image yields one
match whose scaled rectangle has right edge 1/100 strictly less than its
left edge 9/100, so the draw.rectangle call raises ValueError (Pillow 8.2
and later), the except clause in draw_bounding_boxes turns it into a none
return, and no annotated image is produced, contrary to the claim. -/
theorem inverted_box_prevents_annotated_image :
    ((9, 9, 1, 1) : Box) ∈ findAll "[[9,9,1,1]]" ∧
    (scaleRect 10 10 (9, 9, 1, 1)).right < (scaleRect 10 10 (9, 9, 1, 1)).left ∧
    draw_bounding_boxes (.decodable ⟨10, 10, true⟩) "[[9,9,1,1]]" = none := by
  have hfa : findAll "[[9,9,1,1]]" = [(9, 9, 1, 1)] := by decide
  have hinv : (scaleRect 10 10 (9, 9, 1, 1)).right < (scaleRect 10 10 (9, 9, 1, 1)).left := by
    norm_num [scaleRect]
  refine ⟨by decide, hinv, ?_⟩
  have hdl : drawLoop [] [scaleRect 10 10 (9, 9, 1, 1)] = none := by
    rw [drawLoop, if_pos (Or.inl hinv)]
  simp only [draw_bounding_boxes, hfa, List.map_cons, List.map_nil, hdl]

/-- C4 (amended): the renderer applies no validation and no special-casing
to degenerate boxes: every match has the rectangle its four values
describe attempted in match order.  When no matched rectangle is inverted
(this includes degenerate zero-area boxes, whose equal edges the drawing
primitive accepts), the annotated image is produced carrying every
rectangle; when some matched rectangle is inverted (right edge strictly
left of the left edge, or bottom edge strictly above the top edge after
scaling), the drawing primitive raises ValueError (Pillow 8.2 and later),
the renderer catches it and returns no annotation — still without
crashing, and the request keeps its text result. -/
theorem degenerate_boxes_attempted_without_special_casing (w h : Nat) (text : String) :
    ((∀ r ∈ (findAll text).map (scaleRect w h), r.left ≤ r.right ∧ r.top ≤ r.bottom) →
      draw_bounding_boxes (.decodable ⟨w, h, true⟩) text =
        some ⟨w, h, (findAll text).map (scaleRect w h)⟩) ∧
    ((∃ r ∈ (findAll text).map (scaleRect w h), r.right < r.left ∨ r.bottom < r.top) →
      draw_bounding_boxes (.decodable ⟨w, h, true⟩) text = none) := by
  constructor
  · intro hok
    simp [draw_bounding_boxes, drawLoop_ok [] _ hok]
  · intro hbad
    simp [draw_bounding_boxes, drawLoop_none_of_inverted hbad]

theorem degenerate_boxes_attempted_without_special_casing_witness :
    draw_bounding_boxes (.decodable ⟨10, 10, true⟩) "[[5,5,5,7]]" =
      some ⟨10, 10, (findAll "[[5,5,5,7]]").map (scaleRect 10 10)⟩ ∧
    draw_bounding_boxes (.decodable ⟨10, 10, true⟩) "[[9,9,1,1]]" = none := by
  have hfa1 : findAll "[[5,5,5,7]]" = [(5, 5, 5, 7)] := by decide
  have hfa2 : findAll "[[9,9,1,1]]" = [(9, 9, 1, 1)] := by decide
  constructor
  · apply (degenerate_boxes_attempted_without_special_casing 10 10 "[[5,5,5,7]]").1
    rw [hfa1]
    intro r hr
    simp only [List.map_cons, List.map_nil, List.mem_singleton] at hr
    subst hr
    constructor <;> norm_num [scaleRect]
  · apply (degenerate_boxes_attempted_without_special_casing 10 10 "[[9,9,1,1]]").2
    rw [hfa2]
    exact ⟨scaleRect 10 10 (9, 9, 1, 1), by simp, Or.inl (by norm_num [scaleRect])⟩

/-- C5: for every image of pixel width W > 0 and height H > 0 and every
matched coordinate tuple (x1, y1, x2, y2) with all four entries at most
1000, the rectangle drawn by the renderer for that match has left edge
x1 times W over 1000, top edge y1 times H over 1000, right edge x2 times W
over 1000 and bottom edge y2 times H over 1000, as exact division with no
clamping of the values. -/
theorem scaled_rectangle_edges (w h x1 y1 x2 y2 : Nat) (text : String)
    (_hw : 0 < w) (_hh : 0 < h)
    (_hx1 : x1 ≤ 1000) (_hy1 : y1 ≤ 1000) (_hx2 : x2 ≤ 1000) (_hy2 : y2 ≤ 1000)
    (hmem : ((x1, y1, x2, y2) : Box) ∈ findAll text) (ann : AnnotatedImage)
    (hdraw : draw_bounding_boxes (.decodable ⟨w, h, true⟩) text = some ann) :
    ({ left := (x1 : ℚ) * w / 1000, top := (y1 : ℚ) * h / 1000,
       right := (x2 : ℚ) * w / 1000, bottom := (y2 : ℚ) * h / 1000,
       outline := "#00ff00", strokeWidth := 3 } : DrawnRect) ∈ ann.rects := by
  have hann : ann = ⟨w, h, (findAll text).map (scaleRect w h)⟩ :=
    (draw_bounding_boxes_some hdraw).2
  rw [hann]
  exact List.mem_map_of_mem _ hmem

theorem scaled_rectangle_edges_witness :
    ({ left := 0, top := 0, right := 250, bottom := 500, outline := "#00ff00",
       strokeWidth := 3 } : DrawnRect) ∈
      (AnnotatedImage.mk 500 500 [scaleRect 500 500 (0, 0, 500, 1000)]).rects := by
  have hfa : findAll "[[0,0,500,1000]]" = [(0, 0, 500, 1000)] := by decide
  have hdl : drawLoop [] [scaleRect 500 500 (0, 0, 500, 1000)] =
      some [scaleRect 500 500 (0, 0, 500, 1000)] := by
    have hok := drawLoop_ok [] [scaleRect 500 500 (0, 0, 500, 1000)] (by
      intro r hr
      simp only [List.mem_singleton] at hr
      subst hr
      constructor <;> norm_num [scaleRect])
    simpa using hok
  have h := scaled_rectangle_edges 500 500 0 0 500 1000 "[[0,0,500,1000]]"
    (by decide) (by decide) (by decide) (by decide) (by decide) (by decide)
    (by decide) ⟨500, 500, [scaleRect 500 500 (0, 0, 500, 1000)]⟩
    (by simp [draw_bounding_boxes, hfa, hdl])
  simp only [List.mem_singleton] at h ⊢
  rw [← h]
  norm_num [DrawnRect.mk.injEq]

/-- C6: for every decodable input image whose save step succeeds and every
text containing zero matches of the bracketed four-integer coordinate
pattern, draw_bounding_boxes returns an image pixel-identical to the input
image modulo the lossless PNG re-encoding: same pixel dimensions and an
empty list of drawn rectangles. -/
theorem no_matches_returns_unchanged_image (img : Img) (text : String)
    (hs : img.savable = true) (hnone : findAll text = []) :
    draw_bounding_boxes (.decodable img) text = some ⟨img.width, img.height, []⟩ := by
  simp [draw_bounding_boxes, drawLoop, hs, hnone]

theorem no_matches_returns_unchanged_image_witness :
    findAll "only [[1,2]] here" = [] ∧
    draw_bounding_boxes (.decodable ⟨640, 480, true⟩) "only [[1,2]] here" =
      some ⟨640, 480, []⟩ :=
  ⟨by decide, no_matches_returns_unchanged_image ⟨640, 480, true⟩ _ rfl (by decide)⟩

/-- C9: end-to-end scenario: a request carrying a 500 by 500 image and the
prompt extract text, where the upstream stream emits exactly the fragment
with delta Hello and done false followed by the fragment with the
bracketed box plus World and done true, returns the text
Hello [[0,0,500,1000]] World, and the annotation draws exactly one
rectangle at pixel coordinates (0,0) to (250,500) on the 500 by 500
canvas. -/
theorem end_to_end_hello_world_scenario :
    perform_ocr (.decodable ⟨500, 500, true⟩) "extract text"
      (fun _ => .response 200 ""
        [.goodJson (.obj [("response", .str "Hello "), ("done", .bool false)]),
         .goodJson (.obj [("response", .str "[[0,0,500,1000]] World"), ("done", .bool true)])]) =
      .success "Hello [[0,0,500,1000]] World"
        (some ⟨500, 500,
          [{ left := 0, top := 0, right := 250, bottom := 500,
             outline := "#00ff00", strokeWidth := 3 }]⟩) true := by
  have hagg : aggregateChunks ""
      [.goodJson (.obj [("response", .str "Hello "), ("done", .bool false)]),
       .goodJson (.obj [("response", .str "[[0,0,500,1000]] World"), ("done", .bool true)])] =
      .ok "Hello [[0,0,500,1000]] World" := by decide
  have hfa : findAll "Hello [[0,0,500,1000]] World" = [(0, 0, 500, 1000)] := by decide
  have hdl : drawLoop [] [scaleRect 500 500 (0, 0, 500, 1000)] =
      some [scaleRect 500 500 (0, 0, 500, 1000)] := by
    have hok := drawLoop_ok [] [scaleRect 500 500 (0, 0, 500, 1000)] (by
      intro r hr
      simp only [List.mem_singleton] at hr
      subst hr
      constructor <;> norm_num [scaleRect])
    simpa using hok
  have hdraw : draw_bounding_boxes (.decodable ⟨500, 500, true⟩)
      "Hello [[0,0,500,1000]] World" = some ⟨500, 500, [scaleRect 500 500 (0, 0, 500, 1000)]⟩ := by
    simp only [draw_bounding_boxes, hfa, List.map_cons, List.map_nil, hdl]
    rfl
  simp only [perform_ocr, hagg]
  rw [hdraw]
  norm_num [scaleRect, DrawnRect.mk.injEq]

end OcrBackend

namespace OcrBackend

/-! ## The scan of re.findall meets its declarative specification -/

theorem parseNum_suffix {l r : List Char} {n : Nat} (h : parseNum l = some (n, r)) :
    r <:+ l := by
  unfold parseNum at h
  by_cases he : (l.takeWhile isPyDigit).isEmpty
  · rw [if_pos he] at h
    exact absurd h (by simp)
  · rw [if_neg he, Option.some.injEq, Prod.mk.injEq] at h
    rw [← h.2]
    exact List.dropWhile_suffix _

theorem parseCommaNum_suffix {l r : List Char} {n : Nat}
    (h : parseCommaNum l = some (n, r)) : r <:+ l ∧ r.length < l.length := by
  unfold parseCommaNum at h
  split at h
  next rest =>
    have h1 : r <:+ rest.dropWhile isPySpace := parseNum_suffix h
    have h2 : r <:+ rest := h1.trans (List.dropWhile_suffix _)
    refine ⟨h2.trans (List.suffix_cons _ _), ?_⟩
    have := h2.length_le
    simp only [List.length_cons]
    omega
  next => exact absurd h (by simp)

theorem matchBox_suffix {l r : List Char} {t : Box} (h : matchBox l = some (t, r)) :
    r <:+ l ∧ r.length < l.length := by
  unfold matchBox at h
  split at h
  next r0 =>
    split at h
    next => exact absurd h (by simp)
    next a r1 hp1 =>
      split at h
      next => exact absurd h (by simp)
      next b r2 hp2 =>
        split at h
        next => exact absurd h (by simp)
        next c r3 hp3 =>
          split at h
          next => exact absurd h (by simp)
          next d r4 hp4 =>
            split at h
            next r5 =>
              rw [Option.some.injEq, Prod.mk.injEq] at h
              rw [← h.2]
              have s5 : r5 <:+ (']' :: ']' :: r5) :=
                (List.suffix_cons ']' r5).trans (List.suffix_cons ']' (']' :: r5))
              obtain ⟨s4, l4⟩ := parseCommaNum_suffix hp4
              obtain ⟨s3, l3⟩ := parseCommaNum_suffix hp3
              obtain ⟨s2, l2⟩ := parseCommaNum_suffix hp2
              have s1 : r1 <:+ r0 := parseNum_suffix hp1
              have suf : r5 <:+ r0 :=
                ((((s5.trans s4).trans s3).trans s2).trans s1)
              refine ⟨suf.trans ((List.suffix_cons '[' r0).trans
                (List.suffix_cons '[' ('[' :: r0))), ?_⟩
              have := suf.length_le
              simp only [List.length_cons]
              omega
            next => exact absurd h (by simp)
  next => exact absurd h (by simp)

theorem matchBox_nil : matchBox ([] : List Char) = none := rfl

theorem not_startsMatchAt_of_matchBox_none {full : List Char} {p : Nat}
    (h : matchBox (full.drop p) = none) : ¬ StartsMatchAt full p := by
  rintro ⟨t, n, -, -, hm⟩
  rw [h] at hm
  exact absurd hm (by simp)

theorem scanSpec_nil_of_drop_nil {full : List Char} {start : Nat}
    (h : full.drop start = []) : ScanSpec full start [] := by
  refine ScanSpec.nil start (fun p hp => ?_)
  apply not_startsMatchAt_of_matchBox_none
  have hnil : full.drop p = [] :=
    List.drop_eq_nil_iff.mpr (le_trans (List.drop_eq_nil_iff.mp h) hp)
  rw [hnil, matchBox_nil]

theorem matchBox_drop {full : List Char} {start : Nat} {t : Box} {r : List Char}
    (h : matchBox (full.drop start) = some (t, r)) :
    ∃ n, 0 < n ∧ start + n ≤ full.length ∧ r = full.drop (start + n) ∧
      MatchAt full start t n := by
  obtain ⟨hsuf, hlt⟩ := matchBox_suffix h
  have hdropnil : full.drop start ≠ [] := by
    intro hnil
    rw [hnil, matchBox_nil] at h
    exact absurd h (by simp)
  have hstart : start < full.length := by
    by_contra hc
    push_neg at hc
    exact hdropnil (List.drop_eq_nil_iff.mpr hc)
  have hlen : (full.drop start).length = full.length - start := List.length_drop start full
  have hr : r = (full.drop start).drop ((full.drop start).length - r.length) :=
    List.suffix_iff_eq_drop.mp hsuf
  have hdrop : full.drop (start + ((full.drop start).length - r.length)) = r := by
    rw [← List.drop_drop]
    exact hr.symm
  refine ⟨(full.drop start).length - r.length, by omega, by omega, hdrop.symm, ?_⟩
  refine ⟨by omega, by omega, ?_⟩
  rw [hdrop]
  exact h

theorem scanSpec_extend_left {l : List Char} {s : Nat} {ts : List Box}
    (hs : ¬ StartsMatchAt l s) (hspec : ScanSpec l (s + 1) ts) : ScanSpec l s ts := by
  cases hspec with
  | nil _ hnone =>
    refine ScanSpec.nil s (fun p hp => ?_)
    rcases Nat.eq_or_lt_of_le hp with he | hlt
    · exact he ▸ hs
    · exact hnone p hlt
  | cons _ p n t ts hle hm hgap hrest =>
    refine ScanSpec.cons s p n t ts (by omega) hm (fun q hq hqp => ?_) hrest
    rcases Nat.eq_or_lt_of_le hq with he | hlt
    · exact he ▸ hs
    · exact hgap q hlt hqp

theorem findAllAux_scanSpec (fuel : Nat) :
    ∀ (full : List Char) (start : Nat), (full.drop start).length ≤ fuel →
      ScanSpec full start (findAllAux fuel (full.drop start)) := by
  induction fuel with
  | zero =>
    intro full start hlen
    have hnil : full.drop start = [] := List.length_eq_zero.mp (Nat.le_zero.mp hlen)
    rw [hnil]
    exact scanSpec_nil_of_drop_nil hnil
  | succ fuel ih =>
    intro full start hlen
    cases hl : full.drop start with
    | nil =>
      exact scanSpec_nil_of_drop_nil hl
    | cons c rest =>
      cases hm : matchBox (c :: rest) with
      | some pr =>
        obtain ⟨t, r⟩ := pr
        simp only [findAllAux, hm]
        have hm2 : matchBox (full.drop start) = some (t, r) := by rw [hl]; exact hm
        obtain ⟨n, hn0, hnle, hr, hMatch⟩ := matchBox_drop hm2
        have hrlen : r.length ≤ fuel := by
          have hstrict := (matchBox_suffix hm2).2
          omega
        have hnext := ih full (start + n) (by rw [← hr]; exact hrlen)
        rw [← hr] at hnext
        exact ScanSpec.cons start start n t _ le_rfl hMatch
          (fun q hq hqp => absurd hqp (by omega)) hnext
      | none =>
        simp only [findAllAux, hm]
        have hrest : full.drop (start + 1) = rest := by
          have hstep : List.drop 1 (full.drop start) = rest := by rw [hl]; rfl
          rwa [List.drop_drop] at hstep
        have hnext := ih full (start + 1) (by
          rw [hrest]
          have hlen2 : (full.drop start).length = rest.length + 1 := by rw [hl]; rfl
          omega)
        rw [hrest] at hnext
        exact scanSpec_extend_left
          (not_startsMatchAt_of_matchBox_none (by rw [hl]; exact hm)) hnext

/-- C8: for every text, the matches the renderer finds are the leftmost
non-overlapping textual matches of the bracketed four-integer pattern, in
order of appearance (ScanSpec: each listed capture is a real match, no
match starts before or between the listed ones, and each next match is
sought only after the previous one ends), and rectangles are drawn in
exactly that same order: the loop attempts one rectangle per match, first
match first, and whenever the renderer produces an annotated image its
rectangle list is the in-order image of the match list under the
coordinate scaling (later overlapping boxes appear later, hence drawn on
top).  When a draw call raises on an inverted box, no image is produced
at all (see the C4 correction). -/
theorem boxes_are_ordered_nonoverlapping_matches (text : String) :
    ScanSpec text.data 0 (findAll text) ∧
    ∀ (img : Img) (ann : AnnotatedImage),
      draw_bounding_boxes (.decodable img) text = some ann →
        ann.rects = (findAll text).map (scaleRect img.width img.height) := by
  constructor
  · have hspec := findAllAux_scanSpec text.data.length text.data 0 (by simp)
    simpa [findAll] using hspec
  · intro img ann hdraw
    rw [(draw_bounding_boxes_some hdraw).2]

theorem boxes_are_ordered_nonoverlapping_matches_witness :
    ScanSpec ("a[[1,2,3,4]]b[[5,6,7,8]]" : String).data 0
      (findAll "a[[1,2,3,4]]b[[5,6,7,8]]") ∧
    (AnnotatedImage.mk 10 10
        ((findAll "a[[1,2,3,4]]b[[5,6,7,8]]").map (scaleRect 10 10))).rects =
      (findAll "a[[1,2,3,4]]b[[5,6,7,8]]").map (scaleRect 10 10) := by
  have h := boxes_are_ordered_nonoverlapping_matches "a[[1,2,3,4]]b[[5,6,7,8]]"
  refine ⟨h.1, h.2 ⟨10, 10, true⟩ _ ?_⟩
  have hfa : findAll "a[[1,2,3,4]]b[[5,6,7,8]]" = [(1, 2, 3, 4), (5, 6, 7, 8)] := by decide
  have hdl : drawLoop [] [scaleRect 10 10 (1, 2, 3, 4), scaleRect 10 10 (5, 6, 7, 8)] =
      some [scaleRect 10 10 (1, 2, 3, 4), scaleRect 10 10 (5, 6, 7, 8)] := by
    have hok := drawLoop_ok [] [scaleRect 10 10 (1, 2, 3, 4), scaleRect 10 10 (5, 6, 7, 8)] (by
      intro r hr
      rcases List.mem_cons.mp hr with h1 | h2
      · subst h1
        constructor <;> norm_num [scaleRect]
      · simp only [List.mem_singleton] at h2
        subst h2
        constructor <;> norm_num [scaleRect])
    simpa using hok
  simp [draw_bounding_boxes, hfa, hdl]

end OcrBackend
